import Mathlib

/-!
Shallow embedding of the uzulog-deno structured logging library
(src/logger.ts, src/handlers.ts, src/handlers/telegram.handler.ts,
src/util/helpers.ts) together with theorems settling the frozen claims.

JavaScript runtime values that flow through the logger as arguments are
modelled by `PVal`/`Val`; machine integers of the source are JS numbers
used only at small magnitudes, modelled by `Int`/`Nat`.  File contents are
modelled as the list of messages written to them (each terminated by a
newline byte, accounted for in `msgByteLength`).
-/

/-- Modelled from the spec: `src/levels.ts` is not part of the provided
sources; the spec fixes the total order NOTSET < DEBUG < INFO < WARNING <
ERROR < CRITICAL of numeric levels.  Numeric values follow the Deno std
convention used by this repository. -/
inductive LogLevel
  | NOTSET
  | DEBUG
  | INFO
  | WARNING
  | ERROR
  | CRITICAL
deriving DecidableEq, Fintype

/-- Modelled from the spec: numeric value of each level name
(`getLevelByName` of the absent `src/levels.ts`). -/
def levelVal : LogLevel → Int
  | .NOTSET => 0
  | .DEBUG => 10
  | .INFO => 20
  | .WARNING => 30
  | .ERROR => 40
  | .CRITICAL => 50

/-- Modelled from the spec: `getLevelName` of the absent `src/levels.ts`;
derives the level name deterministically from the numeric level. -/
def getLevelName (level : Int) : String :=
  if level = 10 then "DEBUG"
  else if level = 20 then "INFO"
  else if level = 30 then "WARNING"
  else if level = 40 then "ERROR"
  else if level = 50 then "CRITICAL"
  else "NOTSET"

/-- Primitive JS value handed to the logger: a string, a number, a function
object (its `repr` is the source text Deno.inspect/String render; its
`result` is the value it would return if it were ever called), or null. -/
inductive PVal
  | pStr (s : String)
  | pNum (n : Int)
  | pFunc (repr result : String)
  | pNull
deriving DecidableEq

/-- JS argument value: a primitive or a plain object with primitive fields
(`isObject` of src/util/helpers.ts recognises exactly plain objects). -/
inductive Val
  | prim (p : PVal)
  | vObj (fields : List (String × PVal))
deriving DecidableEq

/-- Rendering of a primitive by `Deno.inspect` (external Deno builtin):
strings are quoted, functions render as their source text without being
called. -/
def inspectP : PVal → String
  | .pStr s => "\x22" ++ s ++ "\x22"
  | .pNum n => toString n
  | .pFunc repr _ => repr
  | .pNull => "null"

/-- Rendering of a value by `Deno.inspect` (external Deno builtin). -/
def inspect : Val → String
  | .prim p => inspectP p
  | .vObj fields =>
    "\x7b " ++ String.intercalate ", " (fields.map (fun f => f.1 ++ ": " ++ inspectP f.2)) ++ " \x7d"

/-- src/util/helpers.ts `asString`: a string is returned as is, anything
else goes through `Deno.inspect`. -/
def asString : Val → String
  | .prim (.pStr s) => s
  | v => inspect v

/-- `asString` applied to a primitive (an object field's value). -/
def asStringP : PVal → String
  | .pStr s => s
  | p => inspectP p

/-- src/util/helpers.ts `argsToString`: one argument is rendered alone,
several are joined with single spaces; the result is trimmed. -/
def argsToString (args : List Val) : String :=
  (match args with
   | [] => ""
   | [a] => asString a
   | _ => String.join (args.map (fun a => asString a ++ " "))).trim

/-- Modelled from the spec: the color-stripping collaborator
(`stripColor` of deps, listed by the spec as an external library call).
Drops ESC-initiated ANSI sequences up to their terminating letter. -/
def stripColorGo : Bool → List Char → List Char
  | _, [] => []
  | false, c :: rest =>
    if c = Char.ofNat 27 then stripColorGo true rest else c :: stripColorGo false rest
  | true, c :: rest =>
    if c.isAlpha then stripColorGo false rest else stripColorGo true rest

/-- Modelled from the spec: external color-stripping `string -> string`
collaborator. -/
def stripColor (s : String) : String :=
  String.mk (stripColorGo false s.data)

/-- Modelled from the spec: the external date-formatting collaborator
`(format, timestamp) -> string` (date-format-deno's `asString`). -/
def asStringDate (format : String) (t : Nat) : String :=
  format ++ "@" ++ toString t

/-- src/logger.ts `LogRecord`: immutable snapshot of one log event. -/
structure LogRec where
  msg : String
  args : List Val
  level : Int
  levelName : String
  loggerName : String
  category : Option String
  datetime : Nat
deriving DecidableEq

/-- JS `\w` word character: letters, digits and underscore. -/
def isWordChar (c : Char) : Bool :=
  c.isAlphanum || c = '_'

/-- One left-to-right pass of `String.replace` with the regex
`\x7b(\w+)\x7d` and callback `cb`; `pending = some nm` holds the reversed
word characters read since an opening brace.  A failed partial match is
re-emitted literally and scanning resumes one character later, exactly as
the JS regex engine advances. -/
def scanGo (cb : List Char → List Char) : Option (List Char) → List Char → List Char
  | none, [] => []
  | none, c :: rest =>
    if c = '{' then scanGo cb (some []) rest else c :: scanGo cb none rest
  | some nm, [] => '{' :: nm.reverse
  | some nm, c :: rest =>
    if c = '}' then
      match nm with
      | [] => '{' :: '}' :: scanGo cb none rest
      | _ => cb nm.reverse ++ scanGo cb none rest
    else if isWordChar c then scanGo cb (some (c :: nm)) rest
    else if c = '{' then ('{' :: nm.reverse) ++ scanGo cb (some []) rest
    else ('{' :: nm.reverse) ++ (c :: scanGo cb none rest)

/-- `format.replace(/\x7b(\w+)\x7d/g, cb)` where `cb` substitutes the
resolved value and keeps the match verbatim when resolution yields
null/absent (`f name = none`). -/
def formatReplace (f : String → Option String) (s : String) : String :=
  String.mk (scanGo
    (fun nm => match f (String.mk nm) with
      | some v => v.data
      | none => '{' :: nm ++ ['}'])
    none s.data)

/-- Value of a hexadecimal digit. -/
def hexVal (c : Char) : Nat :=
  if c.isDigit then c.toNat - '0'.toNat
  else if 'a' ≤ c ∧ c ≤ 'f' then c.toNat - 'a'.toNat + 10
  else if 'A' ≤ c ∧ c ≤ 'F' then c.toNat - 'A'.toNat + 10
  else 0

def isHexDigit (c : Char) : Bool :=
  c.isDigit || ('a' ≤ c && c ≤ 'f') || ('A' ≤ c && c ≤ 'F')

/-- JS `parseInt` restricted to `\w+` strings (no sign, no whitespace):
a `0x`/`0X` prefix switches to hexadecimal, otherwise the leading run of
decimal digits is parsed; no digits means NaN (`none`). -/
def parseIntW (s : String) : Option Nat :=
  match s.data with
  | '0' :: 'x' :: rest =>
    let hs := rest.takeWhile isHexDigit
    if hs = [] then none else some (hs.foldl (fun a c => a * 16 + hexVal c) 0)
  | '0' :: 'X' :: rest =>
    let hs := rest.takeWhile isHexDigit
    if hs = [] then none else some (hs.foldl (fun a c => a * 16 + hexVal c) 0)
  | l =>
    let ds := l.takeWhile Char.isDigit
    if ds = [] then none else some (ds.foldl (fun a c => a * 10 + (c.toNat - '0'.toNat)) 0)

/-- Own-field lookup of a plain JS object. -/
def lookupField (fields : List (String × PVal)) (k : String) : Option PVal :=
  (fields.find? (fun f => f.1 == k)).map (fun f => f.2)

/-- The per-placeholder resolution of src/logger.ts `Logger.msgFormat`:
a numeric name indexes the positional arguments (`p1Int <= argsLength`
guard as in the source), otherwise the name is looked up in the first
argument when it is a plain object; a null/undefined value resolves to
`none` (the callback keeps the match). -/
def resolveMsg (args : List Val) (name : String) : Option String :=
  let obj : Option (List (String × PVal)) :=
    match args.head? with
    | some (.vObj fs) => some fs
    | _ => none
  match parseIntW name with
  | none =>
    match obj with
    | some fs =>
      match lookupField fs name with
      | some p => if p = .pNull then none else some (asStringP p)
      | none => none
    | none => none
  | some i =>
    if i ≤ args.length then
      match args[i]? with
      | some v => if v = .prim .pNull then none else some (asString v)
      | none => none
    else none

/-- src/logger.ts `Logger.msgFormat`: with no arguments the template is
returned untouched, otherwise every placeholder is replaced through
`resolveMsg`. -/
def Logger.msgFormat (format : String) (args : List Val) : String :=
  if args.length = 0 then format
  else formatReplace (resolveMsg args) format

/-- JS `String(v)` as it appears for each element when an argument array
is joined by `Array.prototype.toString`: null/undefined join as empty,
functions render as their source text without being called, plain objects
as `[object Object]`. -/
def jsElemString : Val → String
  | .prim .pNull => ""
  | .prim (.pStr s) => s
  | .prim (.pNum n) => toString n
  | .prim (.pFunc repr _) => repr
  | .vObj _ => "[object Object]"

/-- The per-placeholder resolution of src/handlers.ts
`BaseHandler.formatCustom`: `datetime` goes through the injected date
formatter, any other name reads the record's public members; a
null/undefined value resolves to `none` (the callback keeps the match).
Inherited prototype members of the record object are outside the model. -/
def resolveRecord (datetimeFormat : String) (r : LogRec) (name : String) : Option String :=
  if name = "datetime" then some (asStringDate datetimeFormat r.datetime)
  else if name = "msg" then some r.msg
  else if name = "level" then some (toString r.level)
  else if name = "levelName" then some r.levelName
  else if name = "loggerName" then some r.loggerName
  else if name = "category" then r.category
  else if name = "clearMsg" then some (stripColor r.msg)
  else if name = "args" then
    some (String.intercalate "," (r.args.map jsElemString))
  else none

/-- src/handlers.ts `BaseHandler.formatCustom`. -/
def BaseHandler.formatCustom (datetimeFormat : String) (format : String) (r : LogRec) : String :=
  formatReplace (resolveRecord datetimeFormat r) format

/-- src/handlers.ts sink formatter configuration: a template string or a
callback taking the record (the spec's tagged variant). -/
inductive Formatter
  | template (s : String)
  | callback (f : LogRec → String)

/-- src/handlers.ts `BaseHandler` configuration: numeric threshold,
formatter, datetime-format string, color-suppression flag. -/
structure HandlerCfg where
  level : Int
  formatter : Formatter
  datetimeFormat : String
  noColor : Bool

/-- src/handlers.ts `BaseHandler.format`: a callback formatter is applied
directly, a template goes through `formatCustom`. -/
def BaseHandler.format (h : HandlerCfg) (r : LogRec) : String :=
  match h.formatter with
  | .callback f => f r
  | .template s => BaseHandler.formatCustom h.datetimeFormat s r

/-- src/handlers.ts `BaseHandler.handle`: the threshold gate, then
formatting, then optional color strip, then `log`; `none` means the record
was rejected and `log` was never reached, `some m` is the message handed
to `log`. -/
def BaseHandler.handle (h : HandlerCfg) (r : LogRec) : Option String :=
  if h.level > r.level then none
  else
    let msg := BaseHandler.format h r
    some (if h.noColor then stripColor msg else msg)

/-- JS `.` (dot) of a regex does not match line terminators. -/
def isLineTerm (c : Char) : Bool :=
  c = Char.ofNat 10 || c = Char.ofNat 13 || c = Char.ofNat 0x2028 || c = Char.ofNat 0x2029

/-- Does the text start with the literal `\x7bmsg\x7d`? -/
def startsWithMsgTok (l : List Char) : Bool :=
  match l with
  | '{' :: 'm' :: 's' :: 'g' :: '}' :: _ => true
  | _ => false

/-- Split a line at the last occurrence of the literal `\x7bmsg\x7d`
(the greedy first group of `(.*)(\x7bmsg\x7d.*)` backtracks as little as
possible, so group 1 extends to the last occurrence). -/
def lastSplitMsg : List Char → Option (List Char × List Char)
  | [] => none
  | c :: rest =>
    match lastSplitMsg rest with
    | some (p, m) => some (c :: p, m)
    | none => if startsWithMsgTok (c :: rest) then some ([], c :: rest) else none

/-- Attempt of the regex `(.*)(\x7bmsg\x7d.*)` anchored at the current
position: both groups live inside the current line, group 1 is greedy. -/
def tryMatchAt (s : List Char) : Option (List Char × List Char) :=
  lastSplitMsg (s.takeWhile (fun c => !isLineTerm c))

/-- `RegExp.exec` search: the leftmost position with a successful match
wins. -/
def execSplit : List Char → Option (List Char × List Char)
  | [] => none
  | c :: rest =>
    match tryMatchAt (c :: rest) with
    | some r => some r
    | none => execSplit rest

/-- src/handlers.ts `BaseHandler.splitFormatter`: on a match the pair of
regex groups, otherwise both fields null. -/
def BaseHandler.splitFormatter (formatter : String) : Option String × Option String :=
  match execSplit formatter.data with
  | some (p, m) => (some (String.mk p), some (String.mk m))
  | none => (none, none)

/-- The `new LogRecord({...})` construction of src/logger.ts: message text
from the arguments is paired with the raw arguments, the level, the
derived level name, the logger name, an optional category and the creation
timestamp. -/
def LogRecord.build (loggerName : String) (category : Option String) (now : Nat)
    (level : Int) (args : List Val) : LogRec :=
  { msg := argsToString args
    args := args
    level := level
    levelName := getLevelName level
    loggerName := loggerName
    category := category
    datetime := now }

/-- Everything src/logger.ts `Logger._log` produces in one call: the
record it built (none when the level gate rejected the call), the message
each registered handler's `handle` received (none where the handler's own
gate rejected it), and the value returned to the caller. -/
structure LogOut where
  record : Option LogRec
  dispatched : List (Option String)
  result : Option String
deriving Inhabited

/-- src/logger.ts `Logger._log`: the gate compares the logger threshold
with the call level before any record is built; on acceptance a record is
built once and handed to every registered handler in order; with
`returnResult` the color-stripped message text is returned. -/
def Logger._log (loggerLevel : Int) (loggerName : String) (returnResult : Bool)
    (handlers : List HandlerCfg) (now : Nat) (level : Int) (args : List Val) : LogOut :=
  if loggerLevel > level then
    { record := none
      dispatched := []
      result := if returnResult then some (stripColor (argsToString args)) else none }
  else
    let record : LogRec := LogRecord.build loggerName none now level args
    { record := some record
      dispatched := handlers.map (fun h => BaseHandler.handle h record)
      result := if returnResult then some (stripColor record.msg) else none }

/-- src/logger.ts `LoggerCategory._log`: pure delegation to the wrapped
logger's gate, handlers and result policy, with the category label added
to the record. -/
def LoggerCategory._log (category : String) (loggerLevel : Int) (loggerName : String)
    (returnResult : Bool) (handlers : List HandlerCfg) (now : Nat) (level : Int)
    (args : List Val) : LogOut :=
  if loggerLevel > level then
    { record := none
      dispatched := []
      result := if returnResult then some (stripColor (argsToString args)) else none }
  else
    let record : LogRec := LogRecord.build loggerName (some category) now level args
    { record := some record
      dispatched := handlers.map (fun h => BaseHandler.handle h record)
      result := if returnResult then some (stripColor record.msg) else none }

/-- The fan-out loop `handlers.forEach((handler) => handler.handle(record))`
of src/logger.ts lines 126-128 with JS exception semantics: a handler is a
procedure that either returns or throws; `forEach` stops at the first
throw and the exception propagates.  Returns how many handlers were
invoked and the propagated error, if any. -/
def forEachHandle (handlers : List (LogRec → Except String Unit)) (r : LogRec) :
    Nat × Option String :=
  match handlers with
  | [] => (0, none)
  | h :: t =>
    match h r with
    | .error e => (1, some e)
    | .ok _ =>
      let rest := forEachHandle t r
      (rest.1 + 1, rest.2)

/-- src/logger.ts `Logger._log` when handlers may throw: the gate runs
first, then the `forEach` fan-out with exception semantics. -/
def Logger._logExc (loggerLevel : Int) (loggerName : String)
    (handlers : List (LogRec → Except String Unit)) (now : Nat) (level : Int)
    (args : List Val) : Nat × Option String :=
  if loggerLevel > level then (0, none)
  else forEachHandle handlers (LogRecord.build loggerName none now level args)

/-- src/handlers.ts `LogMode`: append, truncate-write, create-exclusive. -/
inductive LogMode
  | a
  | w
  | x
deriving DecidableEq

/-- src/handlers.ts `RotatingFileHandler` configuration.  `maxBytes` and
`maxBackupCount` are JS numbers and may be non-positive before `setup`
validates them. -/
structure RotConfig where
  mode : LogMode
  maxBytes : Int
  maxBackupCount : Int
deriving DecidableEq

/-- `this._encoder.encode(msg).byteLength + 1`: UTF-8 byte length of the
message plus the newline terminator. -/
def msgByteLength (msg : String) : Nat :=
  msg.utf8ByteSize + 1

/-- State of the rotating file sink: `files j` is the content of the file
at the handler's path for `j = 0` and of backup `path.j` for `j ≥ 1`
(`none` when the file does not exist), `buf` holds messages written to the
`BufWriterSync` but not yet flushed into `files 0`, and `currentFileSize`
is the `#currentFileSize` byte counter. -/
structure RotState where
  files : Nat → Option (List String)
  buf : List String
  currentFileSize : Nat

/-- One iteration body of the rotation loop: if a file at position `i`
exists, rename it to position `i + 1`, overwriting any previous occupant
there (`Deno.renameSync`). -/
def shiftOne (files : Nat → Option (List String)) (i : Nat) : Nat → Option (List String) :=
  if (files i).isSome then
    fun j => if j = i + 1 then files i else if j = i then none else files j
  else files

/-- The rotation loop `for (i = maxBackupCount - 1; i >= 0; i--)`:
`doShift files n` performs the iterations `i = n - 1` down to `0`. -/
def doShift (files : Nat → Option (List String)) : Nat → (Nat → Option (List String))
  | 0 => files
  | n + 1 => doShift (shiftOne files n) n

/-- `Deno.openSync`/`Deno.open` with the handler's `_openOptions`:
`none` is the `AlreadyExists` throw of `createNew` mode; otherwise the
resulting content of the opened file (kept in append mode, emptied by
truncation, fresh when the file did not exist). -/
def openSyncContent (mode : LogMode) (existing : Option (List String)) : Option (List String) :=
  match existing with
  | none => some []
  | some c =>
    match mode with
    | .a => some c
    | .w => some []
    | .x => none

/-- The file system as `this._buf.flush()` leaves it: the buffered
messages are appended to the active file at position 0. -/
def flushedFiles (s : RotState) : Nat → Option (List String) :=
  fun j => if j = 0 then some ((s.files 0).getD [] ++ s.buf) else s.files j

/-- src/handlers.ts `RotatingFileHandler.rotateLogFiles`: flush the buffer
into the active file, close it, shift the backups from
`maxBackupCount - 1` down to `0`, and reopen the path with the original
open mode.  `none` models the unreachable `AlreadyExists` throw of
reopening in create-exclusive mode. -/
def rotateLogFiles (cfg : RotConfig) (s : RotState) : Option RotState :=
  let shifted := doShift (flushedFiles s) cfg.maxBackupCount.toNat
  (openSyncContent cfg.mode (shifted 0)).map (fun c =>
    { files := fun j => if j = 0 then some c else shifted j
      buf := []
      currentFileSize := s.currentFileSize })

/-- src/handlers.ts `RotatingFileHandler.log`: compute the message size,
rotate first when it would push the active segment past `maxBytes`
(resetting the counter), then write the message to the buffer and add its
size to the counter. -/
def RotatingFileHandler.log (cfg : RotConfig) (s : RotState) (msg : String) : Option RotState :=
  let msgBytes := msgByteLength msg
  let afterRotate : Option RotState :=
    if (s.currentFileSize : Int) + (msgBytes : Int) > cfg.maxBytes then
      (rotateLogFiles cfg s).map (fun t => { t with currentFileSize := 0 })
    else some s
  afterRotate.map (fun t =>
    { t with buf := t.buf ++ [msg], currentFileSize := t.currentFileSize + msgBytes })

/-- A sequence of `RotatingFileHandler.log` calls. -/
def logList (cfg : RotConfig) (s : RotState) : List String → Option RotState
  | [] => some s
  | m :: ms => (RotatingFileHandler.log cfg s m).bind (fun s' => logList cfg s' ms)

/-- The error surfaced by a failed `RotatingFileHandler.setup`:
`alreadyExists 0` is the `AlreadyExists` throw of opening the active file
in create-exclusive mode, `alreadyExists i` with `i ≥ 1` the explicit
throw for backup `path.i`. -/
inductive SetupErr
  | invalidMaxBytes
  | invalidMaxBackupCount
  | alreadyExists (i : Nat)
deriving DecidableEq

/-- What a failed `setup` left behind: the error, whether `destroy` was
invoked before the throw, and whether a file handle is still held when the
error surfaces. -/
structure SetupFailure where
  err : SetupErr
  destroyCalled : Bool
  fileOpen : Bool
deriving DecidableEq

/-- State after a successful `setup`. -/
structure SetupOk where
  files : Nat → Option (List String)
  currentFileSize : Nat

/-- Byte size reported by `Deno.stat` for a file written by this sink. -/
def fileByteSize (c : List String) : Nat :=
  (c.map msgByteLength).sum

/-- The backup-removal loop of truncate-write mode: for `i` in
`1..maxBackupCount`, remove `path.i` if it exists. -/
def removeBackups (files : Nat → Option (List String)) (n : Nat) : Nat → Option (List String) :=
  (List.range' 1 n).foldl
    (fun f i => if (f i).isSome then fun j => if j = i then none else f j else f) files

/-- The backup-existence check of create-exclusive mode: the first `i` in
`1..maxBackupCount` whose `path.i` exists (the loop throws there). -/
def firstExistingBackup (files : Nat → Option (List String)) (n : Nat) : Option Nat :=
  (List.range' 1 n).find? (fun i => (files i).isSome)

/-- src/handlers.ts `RotatingFileHandler.setup` over a file system `fs0`:
validate the thresholds (calling `destroy` before throwing), open the
active file per mode (`createNew` throws without any resource acquired and
without a `destroy` call), then per mode remove stale backups, reject
pre-existing backups (after `destroy`), or seed the byte counter from the
existing file's size. -/
def RotatingFileHandler.setup (cfg : RotConfig) (fs0 : Nat → Option (List String)) :
    Except SetupFailure SetupOk :=
  if cfg.maxBytes < 1 then
    .error { err := .invalidMaxBytes, destroyCalled := true, fileOpen := false }
  else if cfg.maxBackupCount < 1 then
    .error { err := .invalidMaxBackupCount, destroyCalled := true, fileOpen := false }
  else
    match openSyncContent cfg.mode (fs0 0) with
    | none => .error { err := .alreadyExists 0, destroyCalled := false, fileOpen := false }
    | some c0 =>
      let fs1 : Nat → Option (List String) := fun j => if j = 0 then some c0 else fs0 j
      match cfg.mode with
      | .w => .ok { files := removeBackups fs1 cfg.maxBackupCount.toNat, currentFileSize := 0 }
      | .x =>
        match firstExistingBackup fs1 cfg.maxBackupCount.toNat with
        | some i => .error { err := .alreadyExists i, destroyCalled := true, fileOpen := false }
        | none => .ok { files := fs1, currentFileSize := 0 }
      | .a => .ok { files := fs1, currentFileSize := fileByteSize c0 }

/-- State of src/handlers/telegram.handler.ts `TelegramHandler`: the FIFO
`#queue`, the `#hasConnectToTg` and `#isRunQueue` flags, plus observables
of the cooperative schedule: `inFlight` holds the message of each
outstanding `sendMessage` fetch (conceivably several, if the code failed
to serialize), `handled` the messages dequeued so far in dequeue order,
and `delivered` the messages whose fetch settled successfully, in
settlement order. -/
structure TgState where
  queue : List String
  hasConnectToTg : Bool
  isRunQueue : Bool
  inFlight : List String
  handled : List String
  delivered : List String
deriving DecidableEq

/-- The events of the single-threaded cooperative schedule: a `log` call,
the connectivity probe of `setup` resolving successfully, a `tapQueue`
tick (scheduled by `setTimeout`; spurious ticks are no-ops), and the
settlement of the outstanding `sendMessage` fetch (`settle true` on HTTP
success, `settle false` on a delivery error caught by `.catch`). -/
inductive TgEvent
  | logMsg (m : String)
  | connectOk
  | tick
  | settle (ok : Bool)
deriving DecidableEq

/-- src/handlers/telegram.handler.ts `TelegramHandler.log`: append the
formatted message to the queue (the `setTimeout` it may schedule changes
no state). -/
def TelegramHandler.log (m : String) (s : TgState) : TgState :=
  { s with queue := s.queue ++ [m] }

/-- src/handlers/telegram.handler.ts `TelegramHandler.tapQueue`: do
nothing if a delivery is running, the queue is empty, or the sink is
disconnected; otherwise shift one message off the head.  A shifted falsy
message (the empty string) is discarded without a delivery attempt;
otherwise the in-flight flag is set and the `sendMessage` fetch starts. -/
def TelegramHandler.tapQueue (s : TgState) : TgState :=
  if s.isRunQueue || s.queue.isEmpty || !s.hasConnectToTg then s
  else
    match s.queue with
    | [] => s
    | m :: rest =>
      if m = "" then { s with queue := rest, handled := s.handled ++ [m] }
      else
        { s with
          queue := rest
          handled := s.handled ++ [m]
          isRunQueue := true
          inFlight := s.inFlight ++ [m] }

/-- Settlement of the oldest outstanding fetch: `.catch` logs a delivery
error locally and swallows it, `.finally` clears the in-flight flag and
schedules the next tick; the message is discarded either way (delivered
only records a success). -/
def TelegramHandler.settle (ok : Bool) (s : TgState) : TgState :=
  match s.inFlight with
  | [] => s
  | m :: rest =>
    { s with
      inFlight := rest
      isRunQueue := false
      delivered := if ok then s.delivered ++ [m] else s.delivered }

/-- One event of the cooperative schedule. -/
def tgStep (s : TgState) : TgEvent → TgState
  | .logMsg m => TelegramHandler.log m s
  | .connectOk => { s with hasConnectToTg := true }
  | .tick => TelegramHandler.tapQueue s
  | .settle ok => TelegramHandler.settle ok s

/-- State of a fresh `TelegramHandler` after its constructor. -/
def tgInit : TgState :=
  { queue := []
    hasConnectToTg := false
    isRunQueue := false
    inFlight := []
    handled := []
    delivered := [] }

/-- Run a whole schedule of events. -/
def tgRun (events : List TgEvent) : TgState :=
  events.foldl tgStep tgInit

/-- The messages a schedule enqueues, in `log`-call order. -/
def loggedOf (events : List TgEvent) : List String :=
  events.filterMap (fun e => match e with | .logMsg m => some m | _ => none)

/-- C3: a logger or handler with threshold T processes a record at level R
(builds the record, formats it, invokes log / the registered handlers) iff
R ≥ T under the total order NOTSET < DEBUG < INFO < WARNING < ERROR <
CRITICAL; when R < T no record is dispatched to any handler. -/
theorem C3_level_gate :
    (∀ (t r : LogLevel) (name : String) (rr : Bool) (hs : List HandlerCfg) (now : Nat)
        (args : List Val),
      ((Logger._log (levelVal t) name rr hs now (levelVal r) args).record.isSome = true
          ↔ levelVal t ≤ levelVal r)
        ∧ ((Logger._log (levelVal t) name rr hs now (levelVal r) args).dispatched ≠ []
          ↔ (levelVal t ≤ levelVal r ∧ hs ≠ [])))
    ∧ (∀ (t r : LogLevel) (fm : Formatter) (dtf : String) (nc : Bool) (msg : String)
        (args : List Val) (ln lg : String) (cat : Option String) (dt : Nat),
      (BaseHandler.handle ⟨levelVal t, fm, dtf, nc⟩
          ⟨msg, args, levelVal r, ln, lg, cat, dt⟩).isSome = true
        ↔ levelVal t ≤ levelVal r)
    ∧ (levelVal .NOTSET < levelVal .DEBUG ∧ levelVal .DEBUG < levelVal .INFO
        ∧ levelVal .INFO < levelVal .WARNING ∧ levelVal .WARNING < levelVal .ERROR
        ∧ levelVal .ERROR < levelVal .CRITICAL) := by
  refine ⟨?_, ?_, by decide⟩
  · intro t r name rr hs now args
    by_cases h : levelVal t > levelVal r
    · simp [Logger._log, h, not_le.mpr h]
    · simp [Logger._log, h, not_lt.mp h]
  · intro t r fm dtf nc msg args ln lg cat dt
    by_cases h : levelVal t > levelVal r
    · simp [BaseHandler.handle, h, not_le.mpr h]
    · simp [BaseHandler.handle, h, not_lt.mp h]

/-- Invoking a prefix of handlers that all return normally shifts the
invocation count of the remaining fan-out. -/
theorem forEachHandle_append (pre rest : List (LogRec → Except String Unit)) (r : LogRec)
    (hpre : ∀ h ∈ pre, h r = .ok ()) :
    forEachHandle (pre ++ rest) r
      = ((forEachHandle rest r).1 + pre.length, (forEachHandle rest r).2) := by
  induction pre with
  | nil => simp
  | cons h t ih =>
    have hh : h r = .ok () := hpre h (by simp)
    have ht : ∀ g ∈ t, g r = .ok () := fun g hg => hpre g (by simp [hg])
    have hiht := ih ht
    simp only [List.cons_append, forEachHandle, hh, List.append_eq]
    rw [hiht]
    simp only [Prod.mk.injEq, and_true, List.length_cons]
    omega

/-- C5 counterexample: a dispatcher whose gate accepts the record, with
two registered sinks of which the first throws, invokes only one of the
two — the sibling sink after the throwing one is not invoked, so an error
from one sink does affect dispatch to its siblings. -/
theorem C5_counterexample :
    Logger._logExc 0 "default"
        ((fun _ => Except.error "boom") :: (fun _ => Except.ok ()) :: []) 0 10 []
      = (1, some "boom")
    ∧ ((fun _ => Except.error "boom") :: (fun _ => Except.ok ()) :: []
        : List (LogRec → Except String Unit)).length = 2 := by
  exact ⟨rfl, rfl⟩

/-- C5 amended: for a record accepted by the dispatcher's gate, an error
raised by one sink's handle propagates out of the `forEach` fan-out: the
sinks registered before it have already been invoked with the record, but
the remaining sinks are not invoked. -/
theorem C5_amended (T : Int) (name : String) (now : Nat) (R : Int) (args : List Val)
    (pre post : List (LogRec → Except String Unit)) (f : LogRec → Except String Unit)
    (e : String)
    (hgate : ¬(T > R))
    (hpre : ∀ h ∈ pre, h (LogRecord.build name none now R args) = .ok ())
    (hf : f (LogRecord.build name none now R args) = .error e) :
    Logger._logExc T name (pre ++ f :: post) now R args = (pre.length + 1, some e) := by
  simp only [Logger._logExc, if_neg hgate]
  rw [forEachHandle_append pre (f :: post) _ hpre]
  simp [forEachHandle, hf, Nat.add_comm]

/-- C5 witness: concrete instance of the amended statement, gate at 0
accepting level 10, one well-behaved sink before the throwing one. -/
theorem C5_witness :
    (¬((0 : Int) > 10))
    ∧ Logger._logExc 0 "lg"
        ((fun _ => Except.ok ()) :: (fun _ => Except.error "x") :: []) 0 10 []
      = (2, some "x") := by
  refine ⟨by norm_num, ?_⟩
  have h := C5_amended 0 "lg" 0 10 [] ((fun _ => Except.ok ()) :: [])
    [] (fun _ => Except.error "x") "x" (by norm_num)
    (by intro g hg; simp at hg; subst hg; rfl) rfl
  simpa using h

/-- C7: a delivery error for the dequeued message does not prevent
delivery of the next message: settlement (success or failure alike) never
requeues anything, clears the in-flight flag, and a subsequent tick
delivers the next queued message — concretely, after `m1` fails, `m2` is
still dequeued and delivered on the following tick. -/
theorem C7_error_continues :
    (∀ (s : TgState) (ok : Bool),
      (TelegramHandler.settle ok s).queue = s.queue
      ∧ (TelegramHandler.settle ok s).handled = s.handled
      ∧ (∀ m rest, s.inFlight = m :: rest →
          (TelegramHandler.settle ok s).isRunQueue = false
          ∧ (TelegramHandler.settle ok s).inFlight = rest
          ∧ (TelegramHandler.settle ok s).delivered
              = (if ok then s.delivered ++ [m] else s.delivered)))
    ∧ (∀ m1 m2 : String, m1 ≠ "" → m2 ≠ "" →
        tgRun [.logMsg m1, .logMsg m2, .connectOk, .tick, .settle false, .tick, .settle true]
          = { queue := [], hasConnectToTg := true, isRunQueue := false, inFlight := [],
              handled := [m1, m2], delivered := [m2] }) := by
  constructor
  · intro s ok
    refine ⟨?_, ?_, ?_⟩
    · cases h : s.inFlight <;> simp [TelegramHandler.settle, h]
    · cases h : s.inFlight <;> simp [TelegramHandler.settle, h]
    · intro m rest h
      simp [TelegramHandler.settle, h]
  · intro m1 m2 h1 h2
    simp [tgRun, tgStep, tgInit, TelegramHandler.log, TelegramHandler.tapQueue,
      TelegramHandler.settle, h1, h2]

/-- C7 witness: the settle clauses at a concrete in-flight state and the
two-message failure scenario at concrete messages. -/
theorem C7_witness :
    ({ queue := ["q"], hasConnectToTg := true, isRunQueue := true, inFlight := ["m"],
       handled := ["m"], delivered := [] } : TgState).inFlight = "m" :: []
    ∧ (TelegramHandler.settle false
        { queue := ["q"], hasConnectToTg := true, isRunQueue := true, inFlight := ["m"],
          handled := ["m"], delivered := [] }).isRunQueue = false
    ∧ ("a" : String) ≠ ""
    ∧ ("b" : String) ≠ ""
    ∧ tgRun [.logMsg "a", .logMsg "b", .connectOk, .tick, .settle false, .tick, .settle true]
        = { queue := [], hasConnectToTg := true, isRunQueue := false, inFlight := [],
            handled := ["a", "b"], delivered := ["b"] } := by
  refine ⟨rfl, ?_, by decide, by decide, ?_⟩
  · exact ((C7_error_continues.1 _ false).2.2 "m" [] rfl).1
  · exact C7_error_continues.2 "a" "b" (by decide) (by decide)

/-- The single-in-flight / FIFO invariant of the remote sink's state. -/
def TgInv (s : TgState) : Prop :=
  s.inFlight.length ≤ 1
  ∧ (s.isRunQueue = true ↔ s.inFlight ≠ [])
  ∧ (s.delivered ++ s.inFlight).Sublist s.handled

/-- Every event of the cooperative schedule preserves the invariant. -/
theorem tgStep_inv (s : TgState) (e : TgEvent) (h : TgInv s) : TgInv (tgStep s e) := by
  obtain ⟨h1, h2, h3⟩ := h
  cases e with
  | logMsg m => exact ⟨h1, h2, h3⟩
  | connectOk => exact ⟨h1, h2, h3⟩
  | settle ok =>
    cases hf : s.inFlight with
    | nil =>
      have : tgStep s (.settle ok) = s := by
        simp [tgStep, TelegramHandler.settle, hf]
      rw [this]; exact ⟨h1, h2, hf ▸ h3⟩
    | cons m rest =>
      have hrest : rest = [] := by
        rw [hf] at h1; simpa using h1
      subst hrest
      rw [hf] at h3
      refine ⟨?_, ?_, ?_⟩
      · simp [tgStep, TelegramHandler.settle, hf]
      · simp [tgStep, TelegramHandler.settle, hf]
      · cases ok with
        | true =>
          simpa [tgStep, TelegramHandler.settle, hf] using h3
        | false =>
          simpa [tgStep, TelegramHandler.settle, hf] using
            (List.sublist_append_left s.delivered [m]).trans h3
  | tick =>
    show TgInv (TelegramHandler.tapQueue s)
    unfold TelegramHandler.tapQueue
    by_cases hg : (s.isRunQueue || s.queue.isEmpty || !s.hasConnectToTg) = true
    · rw [if_pos hg]; exact ⟨h1, h2, h3⟩
    · rw [if_neg hg]
      have hrun : s.isRunQueue = false := by
        by_contra hc
        have hb : s.isRunQueue = true := by
          cases hb2 : s.isRunQueue
          · exact absurd hb2 hc
          · rfl
        simp [hb] at hg
      have hinf : s.inFlight = [] := by
        by_contra hc
        have := h2.mpr hc
        rw [hrun] at this
        exact Bool.false_ne_true this
      cases hq : s.queue with
      | nil => exact ⟨h1, h2, h3⟩
      | cons m rest =>
        by_cases hm : m = ""
        · simp only [hm, if_pos rfl]
          exact ⟨h1, h2, h3.trans (List.sublist_append_left s.handled [""])⟩
        · simp only [if_neg hm]
          refine ⟨by simp [hinf], by simp, ?_⟩
          rw [hinf] at h3 ⊢
          simpa using List.Sublist.append (by simpa using h3) (List.Sublist.refl [m])

/-- One step's effect on `handled ++ queue`: a `log` call appends its
message, every other event leaves the concatenation unchanged. -/
theorem tgStep_handled_queue (s : TgState) (e : TgEvent) :
    (tgStep s e).handled ++ (tgStep s e).queue
      = s.handled ++ s.queue ++ (match e with | .logMsg m => [m] | _ => []) := by
  cases e with
  | logMsg m => simp [tgStep, TelegramHandler.log]
  | connectOk => simp [tgStep]
  | settle ok =>
    cases hf : s.inFlight <;> simp [tgStep, TelegramHandler.settle, hf]
  | tick =>
    show (TelegramHandler.tapQueue s).handled ++ (TelegramHandler.tapQueue s).queue = _
    unfold TelegramHandler.tapQueue
    by_cases hg : (s.isRunQueue || s.queue.isEmpty || !s.hasConnectToTg) = true
    · simp [hg]
    · rw [if_neg hg]
      cases hq : s.queue with
      | nil => simp [hq]
      | cons m rest =>
        by_cases hm : m = ""
        · simp [hm]
        · simp [hm]

/-- Invariant preservation along a whole schedule. -/
theorem tgFold_inv (events : List TgEvent) (s : TgState) (h : TgInv s) :
    TgInv (events.foldl tgStep s) := by
  induction events generalizing s with
  | nil => exact h
  | cons e t ih => exact ih (tgStep s e) (tgStep_inv s e h)

/-- `handled ++ queue` accumulates exactly the logged messages. -/
theorem tgFold_handled_queue (events : List TgEvent) (s : TgState) :
    (events.foldl tgStep s).handled ++ (events.foldl tgStep s).queue
      = s.handled ++ s.queue ++ loggedOf events := by
  induction events generalizing s with
  | nil => simp [loggedOf]
  | cons e t ih =>
    rw [List.foldl_cons, ih (tgStep s e), tgStep_handled_queue s e]
    cases e <;> simp [loggedOf, List.filterMap_cons]

/-- C4: for every interleaving of log calls, connectivity events, drain
ticks and settlements, at most one delivery attempt is in flight at any
time and the in-flight flag tracks it exactly; the queue is strictly FIFO:
the dequeued messages followed by the still-queued ones are precisely the
logged messages in their original order, and the delivered messages
(followed by the one possibly in flight) form an order-preserving
subsequence of the dequeue order. -/
theorem C4_single_flight_fifo (events : List TgEvent) :
    (tgRun events).inFlight.length ≤ 1
    ∧ ((tgRun events).isRunQueue = true ↔ (tgRun events).inFlight ≠ [])
    ∧ (tgRun events).handled ++ (tgRun events).queue = loggedOf events
    ∧ ((tgRun events).delivered ++ (tgRun events).inFlight).Sublist (tgRun events).handled := by
  have hinv : TgInv (tgRun events) :=
    tgFold_inv events tgInit ⟨by simp [tgInit], by simp [tgInit], by simp [tgInit]⟩
  have hq := tgFold_handled_queue events tgInit
  exact ⟨hinv.1, hinv.2.1, by simpa [tgInit] using hq, hinv.2.2⟩

/-- Characters other than an opening brace pass through the replace scan
untouched. -/
theorem scanGo_lit (cb : List Char → List Char) (pre s : List Char)
    (h : ∀ c ∈ pre, c ≠ '{') :
    scanGo cb none (pre ++ s) = pre ++ scanGo cb none s := by
  induction pre with
  | nil => simp
  | cons c t ih =>
    have hc : ¬(c = '{') := h c (by simp)
    have ht : ∀ c ∈ t, c ≠ '{' := fun x hx => h x (by simp [hx])
    simp only [List.cons_append, scanGo, if_neg hc, List.append_eq, ih ht]

/-- Reading a nonempty word-character name followed by a closing brace
fires the callback on the accumulated name. -/
theorem scanGo_name (cb : List Char → List Char) (n : List Char) :
    ∀ acc s, n ≠ [] → (∀ c ∈ n, isWordChar c = true) →
      scanGo cb (some acc) (n ++ '}' :: s) = cb (acc.reverse ++ n) ++ scanGo cb none s := by
  induction n with
  | nil => intro acc s hn _; exact absurd rfl hn
  | cons c t ih =>
    intro acc s _ hw
    have hc : isWordChar c = true := hw c (by simp)
    have hcb : ¬(c = '}') := by
      intro hh
      rw [hh] at hc
      exact absurd hc (by decide)
    cases t with
    | nil =>
      simp [scanGo, hcb, hc, List.reverse_cons]
    | cons c2 t2 =>
      have hw2 : ∀ x ∈ c2 :: t2, isWordChar x = true := fun x hx => hw x (by simp [hx])
      calc scanGo cb (some acc) ((c :: c2 :: t2) ++ '}' :: s)
          = scanGo cb (some (c :: acc)) ((c2 :: t2) ++ '}' :: s) := by
            simp only [List.cons_append, scanGo, if_neg hcb, if_pos hc]
        _ = cb ((c :: acc).reverse ++ (c2 :: t2)) ++ scanGo cb none s :=
            ih (c :: acc) s (by simp) hw2
        _ = cb (acc.reverse ++ (c :: c2 :: t2)) ++ scanGo cb none s := by
            simp [List.reverse_cons, List.append_assoc]

/-- An unresolved placeholder surrounded by brace-free text before it is
reproduced verbatim by the replace scan while scanning continues after
it. -/
theorem formatReplace_keep (f : String → Option String) (pre n post : String)
    (hpre : ∀ c ∈ pre.data, c ≠ '{') (hn : n.data ≠ [])
    (hw : ∀ c ∈ n.data, isWordChar c = true) (hf : f n = none) :
    formatReplace f (pre ++ "\x7b" ++ n ++ "\x7d" ++ post)
      = pre ++ "\x7b" ++ n ++ "\x7d" ++ formatReplace f post := by
  apply String.ext
  show (formatReplace f (pre ++ "\x7b" ++ n ++ "\x7d" ++ post)).data = _
  have hdata : (pre ++ "\x7b" ++ n ++ "\x7d" ++ post).data
      = pre.data ++ '{' :: (n.data ++ '}' :: post.data) := by
    simp [String.data_append]
  have hmkn : String.mk n.data = n := rfl
  unfold formatReplace
  rw [hdata]
  rw [scanGo_lit _ pre.data _ hpre]
  show pre.data ++ scanGo _ none ('{' :: (n.data ++ '}' :: post.data)) = _
  rw [show ('{' :: (n.data ++ '}' :: post.data)) = ('{' :: (n.data ++ '}' :: post.data)) from rfl]
  rw [scanGo]
  rw [if_pos rfl]
  rw [scanGo_name _ n.data [] post.data hn hw]
  simp only [List.nil_append, List.reverse_nil, hmkn, hf]
  simp [String.data_append]

/-- C8: a placeholder whose resolved value is null or absent is left
unchanged in the output as the literal brace-name-brace text (not blanked
or removed), both in the logger's argument-based `msgFormat` and in the
handler's record-field `formatCustom`; surrounding text keeps being
processed normally. -/
theorem C8_unresolved_placeholder (pre n post : String) (args : List Val) (dtf : String)
    (r : LogRec)
    (hpre : ∀ c ∈ pre.data, c ≠ '{') (hn : n.data ≠ [])
    (hw : ∀ c ∈ n.data, isWordChar c = true) :
    (resolveMsg args n = none →
      Logger.msgFormat (pre ++ "\x7b" ++ n ++ "\x7d" ++ post) args
        = pre ++ "\x7b" ++ n ++ "\x7d"
          ++ (if args.length = 0 then post else formatReplace (resolveMsg args) post))
    ∧ (resolveRecord dtf r n = none →
      BaseHandler.formatCustom dtf (pre ++ "\x7b" ++ n ++ "\x7d" ++ post) r
        = pre ++ "\x7b" ++ n ++ "\x7d" ++ formatReplace (resolveRecord dtf r) post) := by
  constructor
  · intro hf
    by_cases ha : args.length = 0
    · rw [if_pos ha]
      unfold Logger.msgFormat
      rw [if_pos ha]
    · rw [if_neg ha]
      unfold Logger.msgFormat
      rw [if_neg ha]
      exact formatReplace_keep _ pre n post hpre hn hw hf
  · intro hf
    unfold BaseHandler.formatCustom
    exact formatReplace_keep _ pre n post hpre hn hw hf

/-- C8 witness: the unresolved name `cat` (no object argument, not a
record field) is kept literally by both formatters at concrete inputs. -/
theorem C8_witness :
    (∀ c ∈ ("lvl " : String).data, c ≠ '{')
    ∧ ("cat" : String).data ≠ []
    ∧ (∀ c ∈ ("cat" : String).data, isWordChar c = true)
    ∧ resolveMsg [Val.prim (PVal.pNum 5)] "cat" = none
    ∧ resolveRecord "fmt" ⟨"m", [], 20, "INFO", "lg", none, 0⟩ "cat" = none
    ∧ Logger.msgFormat ("lvl " ++ "\x7b" ++ "cat" ++ "\x7d" ++ " t") [Val.prim (PVal.pNum 5)]
        = "lvl " ++ "\x7b" ++ "cat" ++ "\x7d"
          ++ (if ([Val.prim (PVal.pNum 5)] : List Val).length = 0 then " t"
              else formatReplace (resolveMsg [Val.prim (PVal.pNum 5)]) " t")
    ∧ BaseHandler.formatCustom "fmt" ("lvl " ++ "\x7b" ++ "cat" ++ "\x7d" ++ " t")
          ⟨"m", [], 20, "INFO", "lg", none, 0⟩
        = "lvl " ++ "\x7b" ++ "cat" ++ "\x7d"
          ++ formatReplace (resolveRecord "fmt" ⟨"m", [], 20, "INFO", "lg", none, 0⟩) " t" := by
  refine ⟨by decide, by decide, by decide, by decide, by decide, ?_, ?_⟩
  · exact (C8_unresolved_placeholder "lvl " "cat" " t" [Val.prim (PVal.pNum 5)] "fmt"
      ⟨"m", [], 20, "INFO", "lg", none, 0⟩ (by decide) (by decide) (by decide)).1 (by decide)
  · exact (C8_unresolved_placeholder "lvl " "cat" " t" [Val.prim (PVal.pNum 5)] "fmt"
      ⟨"m", [], 20, "INFO", "lg", none, 0⟩ (by decide) (by decide) (by decide)).2 (by decide)

/-- When the split regex finds no candidate in a line, the literal
`\x7bmsg\x7d` occurs nowhere in it. -/
theorem lastSplitMsg_none (l : List Char) :
    lastSplitMsg l = none → ∀ i, startsWithMsgTok (l.drop i) = false := by
  induction l with
  | nil => intro _ i; simp [startsWithMsgTok]
  | cons c rest ih =>
    intro h i
    cases hr : lastSplitMsg rest with
    | some q =>
      obtain ⟨q1, q2⟩ := q
      simp [lastSplitMsg, hr] at h
    | none =>
      simp only [lastSplitMsg, hr] at h
      by_cases hs : startsWithMsgTok (c :: rest) = true
      · rw [if_pos hs] at h
        exact absurd h (by simp)
      · cases i with
        | zero =>
          simpa using (Bool.not_eq_true _).mp hs
        | succ j =>
          simpa using ih hr j

/-- A successful split returns the text split at the last occurrence of
the literal `\x7bmsg\x7d`: the remainder starts with it and contains no
later occurrence. -/
theorem lastSplitMsg_some (l : List Char) :
    ∀ p m, lastSplitMsg l = some (p, m) →
      l = p ++ m ∧ startsWithMsgTok m = true
        ∧ ∀ j, 1 ≤ j → startsWithMsgTok (m.drop j) = false := by
  induction l with
  | nil => intro p m h; simp [lastSplitMsg] at h
  | cons c rest ih =>
    intro p m h
    cases hr : lastSplitMsg rest with
    | some q =>
      obtain ⟨q1, q2⟩ := q
      simp only [lastSplitMsg, hr] at h
      rw [Option.some.injEq, Prod.mk.injEq] at h
      obtain ⟨hp, hm⟩ := h
      obtain ⟨ih1, ih2, ih3⟩ := ih q1 q2 hr
      subst hp
      subst hm
      exact ⟨by simp [ih1], ih2, ih3⟩
    | none =>
      simp only [lastSplitMsg, hr] at h
      by_cases hs : startsWithMsgTok (c :: rest) = true
      · rw [if_pos hs] at h
        rw [Option.some.injEq, Prod.mk.injEq] at h
        obtain ⟨hp, hm⟩ := h
        subst hp
        subst hm
        refine ⟨by simp, hs, ?_⟩
        intro j hj
        cases j with
        | zero => omega
        | succ k => simpa using lastSplitMsg_none rest hr k
      · rw [if_neg hs] at h
        exact absurd h (by simp)

/-- C6 counterexample: on a template with two `\x7bmsg\x7d` occurrences
the split prefix is everything before the last occurrence, not everything
before the first occurrence as the claim states. -/
theorem C6_counterexample :
    BaseHandler.splitFormatter "a\x7bmsg\x7db\x7bmsg\x7dc"
        = (some "a\x7bmsg\x7db", some "\x7bmsg\x7dc")
    ∧ ("a\x7bmsg\x7db" : String) ≠ "a" := by
  exact ⟨by decide, by decide⟩

/-- C6 amended: for every template without line-terminator characters
containing at least one `\x7bmsg\x7d` occurrence, `splitFormatter` splits
it into a prefix equal to everything before the last occurrence and a
remainder beginning at that last occurrence (the greedy first regex group
extends as far as possible). -/
theorem C6_amended (s : String)
    (hterm : ∀ c ∈ s.data, isLineTerm c = false)
    (hocc : ∃ i, startsWithMsgTok (s.data.drop i) = true) :
    ∃ p m : List Char,
      BaseHandler.splitFormatter s = (some (String.mk p), some (String.mk m))
      ∧ s.data = p ++ m
      ∧ startsWithMsgTok m = true
      ∧ ∀ j, 1 ≤ j → startsWithMsgTok (m.drop j) = false := by
  have htake : s.data.takeWhile (fun c => !isLineTerm c) = s.data := by
    rw [List.takeWhile_eq_self_iff]
    intro c hc
    simp [hterm c hc]
  obtain ⟨i, hi⟩ := hocc
  have hsome : ∃ q, lastSplitMsg s.data = some q := by
    cases hls : lastSplitMsg s.data with
    | some q => exact ⟨q, rfl⟩
    | none =>
      have := lastSplitMsg_none s.data hls i
      rw [hi] at this
      exact absurd this (by simp)
  obtain ⟨⟨p, m⟩, hpm⟩ := hsome
  obtain ⟨h1, h2, h3⟩ := lastSplitMsg_some s.data p m hpm
  refine ⟨p, m, ?_, h1, h2, h3⟩
  cases hd : s.data with
  | nil =>
    rw [hd] at hi
    simp [startsWithMsgTok] at hi
  | cons c rest =>
    unfold BaseHandler.splitFormatter
    rw [hd]
    show (match execSplit (c :: rest) with
      | some (p, m) => (some (String.mk p), some (String.mk m))
      | none => (none, none)) = _
    rw [execSplit]
    unfold tryMatchAt
    rw [← hd, htake, hpm]

/-- C6 witness: the amended split statement at the concrete two-occurrence
template. -/
theorem C6_witness :
    (∀ c ∈ ("a\x7bmsg\x7db\x7bmsg\x7dc" : String).data, isLineTerm c = false)
    ∧ startsWithMsgTok (("a\x7bmsg\x7db\x7bmsg\x7dc" : String).data.drop 1) = true
    ∧ ∃ p m : List Char,
        BaseHandler.splitFormatter "a\x7bmsg\x7db\x7bmsg\x7dc"
          = (some (String.mk p), some (String.mk m))
        ∧ ("a\x7bmsg\x7db\x7bmsg\x7dc" : String).data = p ++ m
        ∧ startsWithMsgTok m = true
        ∧ ∀ j, 1 ≤ j → startsWithMsgTok (m.drop j) = false := by
  refine ⟨by decide, by decide, ?_⟩
  exact C6_amended "a\x7bmsg\x7db\x7bmsg\x7dc" (by decide) ⟨1, by decide⟩

/-- `shiftOne` at an index it does not touch. -/
theorem shiftOne_untouched (f : Nat → Option (List String)) (i j : Nat)
    (h1 : ¬(j = i + 1)) (h2 : ¬(j = i)) : shiftOne f i j = f j := by
  unfold shiftOne
  by_cases hs : (f i).isSome
  · simp [hs, h1, h2]
  · simp [hs]

/-- `shiftOne` clears its source slot. -/
theorem shiftOne_source (f : Nat → Option (List String)) (i : Nat) :
    shiftOne f i i = none := by
  unfold shiftOne
  by_cases hs : (f i).isSome
  · simp [hs]
  · simp [hs, Option.not_isSome_iff_eq_none.mp hs]

/-- `shiftOne` at its destination slot. -/
theorem shiftOne_dest (f : Nat → Option (List String)) (i : Nat) :
    shiftOne f i (i + 1) = if (f i).isSome then f i else f (i + 1) := by
  unfold shiftOne
  by_cases hs : (f i).isSome
  · simp [hs]
  · simp [hs]

/-- Closed form of the rotation loop with at least one iteration: the
active slot is freed, every inner backup slot holds the file that was one
position younger, the oldest slot keeps the second-oldest file when that
existed (evicting the previous occupant) and is untouched otherwise, and
slots beyond the loop range never change. -/
theorem doShift_closed (n : Nat) :
    ∀ (f : Nat → Option (List String)) (j : Nat),
      doShift f (n + 1) j
        = if j = 0 then none
          else if j < n + 1 then f (j - 1)
          else if j = n + 1 then (if (f n).isSome then f n else f (n + 1))
          else f j := by
  induction n with
  | zero =>
    intro f j
    show shiftOne f 0 j = _
    by_cases hj0 : j = 0
    · subst hj0
      simp [shiftOne_source]
    · by_cases hj1 : j = 1
      · subst hj1
        simpa using shiftOne_dest f 0
      · have hlt : ¬(j < 1) := by omega
        rw [shiftOne_untouched f 0 j (by omega) (by omega)]
        simp [hj0, hj1, hlt]
  | succ k ih =>
    intro f j
    show doShift (shiftOne f (k + 1)) (k + 1) j = _
    rw [ih (shiftOne f (k + 1)) j]
    by_cases hj0 : j = 0
    · simp [hj0]
    · by_cases hjlt : j < k + 1
      · have hg : shiftOne f (k + 1) (j - 1) = f (j - 1) :=
          shiftOne_untouched f (k + 1) (j - 1) (by omega) (by omega)
        simp [hj0, hjlt, hg, show j < k + 2 by omega]
      · by_cases hjeq : j = k + 1
        · have hgk : shiftOne f (k + 1) k = f k :=
            shiftOne_untouched f (k + 1) k (by omega) (by omega)
          have hgk1 : shiftOne f (k + 1) (k + 1) = none := shiftOne_source f (k + 1)
          have hcollapse : (if (f k).isSome then f k else (none : Option (List String))) = f k := by
            by_cases hfk : (f k).isSome
            · rw [if_pos hfk]
            · rw [if_neg hfk, Option.not_isSome_iff_eq_none.mp hfk]
          subst hjeq
          simp [hj0, hjlt, hgk, hgk1, hcollapse, show k + 1 < k + 2 by omega]
        · by_cases hj2 : j = k + 2
          · have hgd : shiftOne f (k + 1) (k + 2) = if (f (k + 1)).isSome then f (k + 1) else f (k + 2) :=
              shiftOne_dest f (k + 1)
            subst hj2
            simp [hj0, hjlt, hjeq, hgd]
          · have hgu : shiftOne f (k + 1) j = f j :=
              shiftOne_untouched f (k + 1) j (by omega) (by omega)
            have h1 : ¬(j < k + 2) := by omega
            simp [hj0, hjlt, hjeq, hj2, hgu, h1]

/-- With a validated backup count the rotation never hits the unreachable
reopen failure: the shift frees the active slot, so reopening yields an
empty active file in every mode. -/
theorem rotateLogFiles_eq (cfg : RotConfig) (s : RotState) (n : Nat)
    (hn : cfg.maxBackupCount.toNat = n + 1) :
    rotateLogFiles cfg s
      = some { files := fun j => if j = 0 then some [] else doShift (flushedFiles s) (n + 1) j
               buf := []
               currentFileSize := s.currentFileSize } := by
  have hzero : doShift (flushedFiles s) cfg.maxBackupCount.toNat 0 = none := by
    rw [hn, doShift_closed]
    simp
  show (openSyncContent cfg.mode (doShift (flushedFiles s) cfg.maxBackupCount.toNat 0)).map
      (fun c => RotState.mk
        (fun j => if j = 0 then some c else doShift (flushedFiles s) cfg.maxBackupCount.toNat j)
        [] s.currentFileSize)
    = some (RotState.mk
        (fun j => if j = 0 then some [] else doShift (flushedFiles s) (n + 1) j)
        [] s.currentFileSize)
  rw [hzero, hn]
  rfl

/-- The no-rotation branch of `RotatingFileHandler.log`: the message is
buffered and its size added to the counter, nothing else changes. -/
theorem log_eq_no_rotate (cfg : RotConfig) (s : RotState) (m : String)
    (hc : ¬((s.currentFileSize : Int) + (msgByteLength m : Int) > cfg.maxBytes)) :
    RotatingFileHandler.log cfg s m
      = some { files := s.files, buf := s.buf ++ [m],
               currentFileSize := s.currentFileSize + msgByteLength m } := by
  show (if (s.currentFileSize : Int) + (msgByteLength m : Int) > cfg.maxBytes then
          (rotateLogFiles cfg s).map (fun t => RotState.mk t.files t.buf 0)
        else some s).map
      (fun t => RotState.mk t.files (t.buf ++ [m]) (t.currentFileSize + msgByteLength m))
    = some (RotState.mk s.files (s.buf ++ [m]) (s.currentFileSize + msgByteLength m))
  rw [if_neg hc]
  rfl

/-- The rotation branch of `RotatingFileHandler.log`: flush, shift,
reopen fresh, reset the counter, then write the message. -/
theorem log_eq_rotate (cfg : RotConfig) (s : RotState) (m : String) (n : Nat)
    (hn : cfg.maxBackupCount.toNat = n + 1)
    (hc : (s.currentFileSize : Int) + (msgByteLength m : Int) > cfg.maxBytes) :
    RotatingFileHandler.log cfg s m
      = some { files := fun j => if j = 0 then some [] else doShift (flushedFiles s) (n + 1) j
               buf := [m]
               currentFileSize := msgByteLength m } := by
  show (if (s.currentFileSize : Int) + (msgByteLength m : Int) > cfg.maxBytes then
          (rotateLogFiles cfg s).map (fun t => RotState.mk t.files t.buf 0)
        else some s).map
      (fun t => RotState.mk t.files (t.buf ++ [m]) (t.currentFileSize + msgByteLength m))
    = some (RotState.mk
        (fun j => if j = 0 then some [] else doShift (flushedFiles s) (n + 1) j)
        [m] (msgByteLength m))
  rw [if_pos hc, rotateLogFiles_eq cfg s n hn]
  simp only [Option.map_some', List.nil_append, Nat.zero_add]

/-- One `log` call from a state with an existing active file: the call
succeeds, the active file still exists afterwards, the byte counter obeys
the rotation bound, and the message itself was written last. -/
theorem log_step (cfg : RotConfig) (s : RotState) (m : String)
    (hmb : (1 : Int) ≤ cfg.maxBackupCount) (h0 : (s.files 0).isSome = true) :
    ∃ s', RotatingFileHandler.log cfg s m = some s'
      ∧ (s'.files 0).isSome = true
      ∧ (((s'.currentFileSize : Int) ≤ cfg.maxBytes)
          ∨ ((cfg.maxBytes : Int) < (msgByteLength m : Int)
              ∧ s'.currentFileSize = msgByteLength m))
      ∧ s'.buf.getLast? = some m := by
  obtain ⟨n, hn⟩ : ∃ n, cfg.maxBackupCount.toNat = n + 1 := by
    refine ⟨cfg.maxBackupCount.toNat - 1, ?_⟩
    omega
  by_cases hc : (s.currentFileSize : Int) + (msgByteLength m : Int) > cfg.maxBytes
  · refine ⟨_, log_eq_rotate cfg s m n hn hc, by simp, ?_, by simp⟩
    by_cases hbig : (cfg.maxBytes : Int) < (msgByteLength m : Int)
    · exact Or.inr ⟨hbig, rfl⟩
    · exact Or.inl (show ((msgByteLength m : Nat) : Int) ≤ cfg.maxBytes by omega)
  · refine ⟨_, log_eq_no_rotate cfg s m hc, by simpa using h0, ?_, by simp⟩
    exact Or.inl (show ((s.currentFileSize + msgByteLength m : Nat) : Int) ≤ cfg.maxBytes by
      push_cast at hc ⊢
      omega)

/-- C1: after a successful setup (validated thresholds, active file open),
for every sequence of `RotatingFileHandler.log` calls the active segment's
byte counter never exceeds `maxBytes`, except that the single message
whose write triggered the rotation check on that same call may itself
exceed `maxBytes`; that message is still written — after rotation — even
if its size alone is greater than `maxBytes`. -/
theorem C1_segment_bound (cfg : RotConfig) (s0 : RotState) (msgs : List String) (msg : String)
    (hb : (1 : Int) ≤ cfg.maxBytes) (hmb : (1 : Int) ≤ cfg.maxBackupCount)
    (h0 : (s0.files 0).isSome = true) :
    ∃ s', logList cfg s0 (msgs ++ [msg]) = some s'
      ∧ (((s'.currentFileSize : Int) ≤ cfg.maxBytes)
          ∨ ((cfg.maxBytes : Int) < (msgByteLength msg : Int)
              ∧ s'.currentFileSize = msgByteLength msg))
      ∧ s'.buf.getLast? = some msg := by
  clear hb
  induction msgs generalizing s0 with
  | nil =>
    obtain ⟨s', hs', _, hsize, hlast⟩ := log_step cfg s0 msg hmb h0
    exact ⟨s', by simp [logList, hs'], hsize, hlast⟩
  | cons m t ih =>
    obtain ⟨s1, hs1, hopen1, _, _⟩ := log_step cfg s0 m hmb h0
    obtain ⟨s', hs', hsize, hlast⟩ := ih s1 hopen1
    exact ⟨s', by simp [logList, hs1, hs'], hsize, hlast⟩

/-- C1 witness: `maxBytes = 5`, two backups, an empty active file; the
second message (9 bytes with terminator) exceeds `maxBytes` alone and is
still written after rotation. -/
theorem C1_witness :
    ((1 : Int) ≤ (5 : Int)) ∧ ((1 : Int) ≤ (2 : Int))
    ∧ ((({ files := fun j => if j = 0 then some [] else none, buf := [],
           currentFileSize := 0 } : RotState).files 0).isSome = true)
    ∧ ∃ s', logList ⟨LogMode.a, 5, 2⟩
          { files := fun j => if j = 0 then some [] else none, buf := [], currentFileSize := 0 }
          (["ab"] ++ ["abcdefgh"]) = some s'
        ∧ (((s'.currentFileSize : Int) ≤ (5 : Int))
            ∨ (((5 : Int)) < (msgByteLength "abcdefgh" : Int)
                ∧ s'.currentFileSize = msgByteLength "abcdefgh"))
        ∧ s'.buf.getLast? = some "abcdefgh" := by
  refine ⟨by norm_num, by norm_num, rfl, ?_⟩
  exact C1_segment_bound ⟨LogMode.a, 5, 2⟩
    { files := fun j => if j = 0 then some [] else none, buf := [], currentFileSize := 0 }
    ["ab"] "abcdefgh" (by norm_num) (by norm_num) rfl

/-- C2: `log` computes the size as byte length plus terminator; if
`currentSize + size > maxBytes` it rotates before writing — flushing the
buffer into the active segment, renaming each existing file at position
`i` (taken from `maxBackupCount - 1` down to `0`, the active file) to
position `i + 1` and overwriting the previous occupant there (evicting the
oldest backup), reopening a fresh active segment and resetting the counter
to 0 — and only then writes `msg` and adds its size to the counter; with
no overflow the message is simply buffered and the size added. -/
theorem C2_rotation_algorithm (cfg : RotConfig) (s : RotState) (msg : String) :
    (¬((s.currentFileSize : Int) + (msgByteLength msg : Int) > cfg.maxBytes) →
      RotatingFileHandler.log cfg s msg
        = some { files := s.files, buf := s.buf ++ [msg],
                 currentFileSize := s.currentFileSize + msgByteLength msg })
    ∧ (∀ n, cfg.maxBackupCount.toNat = n + 1 →
        (s.currentFileSize : Int) + (msgByteLength msg : Int) > cfg.maxBytes →
        RotatingFileHandler.log cfg s msg
          = some { files := fun j =>
                     if j = 0 then some []
                     else if j < n + 1 then flushedFiles s (j - 1)
                     else if j = n + 1 then
                       (if (flushedFiles s n).isSome then flushedFiles s n
                        else flushedFiles s (n + 1))
                     else flushedFiles s j
                   buf := [msg]
                   currentFileSize := msgByteLength msg }) := by
  refine ⟨log_eq_no_rotate cfg s msg, ?_⟩
  intro n hn hc
  rw [log_eq_rotate cfg s msg n hn hc]
  refine congrArg some ?_
  have hf : (fun j => if j = 0 then some [] else doShift (flushedFiles s) (n + 1) j)
      = (fun j =>
          if j = 0 then some []
          else if j < n + 1 then flushedFiles s (j - 1)
          else if j = n + 1 then
            (if (flushedFiles s n).isSome then flushedFiles s n
             else flushedFiles s (n + 1))
          else flushedFiles s j) := by
    funext j
    by_cases hj : j = 0
    · simp [hj]
    · rw [doShift_closed n (flushedFiles s) j]
      simp [hj]
  rw [hf]

/-- C2 witness: both branches at concrete inputs — a 2-byte message that
fits (counter 7, `maxBytes` 10) and a 9-byte message that forces a
rotation with `maxBackupCount = 2`. -/
theorem C2_witness :
    (¬((((7 : Nat) : Int)) + (msgByteLength "a" : Int) > (10 : Int)))
    ∧ ((⟨LogMode.a, 10, 2⟩ : RotConfig).maxBackupCount.toNat = 1 + 1)
    ∧ ((((7 : Nat) : Int)) + (msgByteLength "abcdefgh" : Int) > (10 : Int))
    ∧ RotatingFileHandler.log ⟨LogMode.a, 10, 2⟩
        { files := fun j => if j = 0 then some ["x"] else none, buf := ["b"],
          currentFileSize := 7 } "a"
      = some { files := (fun j => if j = 0 then some ["x"] else none : Nat → Option (List String)),
               buf := ["b"] ++ ["a"], currentFileSize := 7 + msgByteLength "a" }
    ∧ RotatingFileHandler.log ⟨LogMode.a, 10, 2⟩
        { files := fun j => if j = 0 then some ["x"] else none, buf := ["b"],
          currentFileSize := 7 } "abcdefgh"
      = some { files := fun j =>
                 if j = 0 then some []
                 else if j < 1 + 1 then
                   flushedFiles { files := fun i => if i = 0 then some ["x"] else none,
                                  buf := ["b"], currentFileSize := 7 } (j - 1)
                 else if j = 1 + 1 then
                   (if (flushedFiles { files := fun i => if i = 0 then some ["x"] else none,
                                       buf := ["b"], currentFileSize := 7 } 1).isSome then
                      flushedFiles { files := fun i => if i = 0 then some ["x"] else none,
                                     buf := ["b"], currentFileSize := 7 } 1
                    else
                      flushedFiles { files := fun i => if i = 0 then some ["x"] else none,
                                     buf := ["b"], currentFileSize := 7 } (1 + 1))
                 else flushedFiles { files := fun i => if i = 0 then some ["x"] else none,
                                     buf := ["b"], currentFileSize := 7 } j
               buf := ["abcdefgh"]
               currentFileSize := msgByteLength "abcdefgh" } := by
  refine ⟨by decide, by decide, by decide, ?_, ?_⟩
  · exact (C2_rotation_algorithm ⟨LogMode.a, 10, 2⟩
      { files := fun j => if j = 0 then some ["x"] else none, buf := ["b"],
        currentFileSize := 7 } "a").1 (by decide)
  · exact (C2_rotation_algorithm ⟨LogMode.a, 10, 2⟩
      { files := fun j => if j = 0 then some ["x"] else none, buf := ["b"],
        currentFileSize := 7 } "abcdefgh").2 1 (by decide) (by decide)

/-- Membership in a step-one range. -/
theorem mem_range1_iff (s n m : Nat) : m ∈ List.range' s n ↔ s ≤ m ∧ m < s + n := by
  rw [List.mem_range']
  constructor
  · rintro ⟨i, hi, rfl⟩
    omega
  · rintro ⟨h1, h2⟩
    exact ⟨m - s, by omega, by omega⟩

/-- Opening throws exactly in create-exclusive mode on an existing file. -/
theorem openSyncContent_eq_none_iff (mode : LogMode) (e : Option (List String)) :
    openSyncContent mode e = none ↔ (mode = .x ∧ e.isSome = true) := by
  cases mode <;> cases e <;> simp [openSyncContent]

/-- The create-exclusive backup scan finds a hit exactly when some backup
in range exists. -/
theorem firstExistingBackup_some_iff (fs : Nat → Option (List String)) (n : Nat) :
    (∃ i, firstExistingBackup fs n = some i)
      ↔ ∃ i, 1 ≤ i ∧ i ≤ n ∧ (fs i).isSome = true := by
  unfold firstExistingBackup
  constructor
  · rintro ⟨i, hi⟩
    have hmem := List.mem_of_find?_eq_some hi
    have hp := List.find?_some hi
    rw [mem_range1_iff] at hmem
    exact ⟨i, hmem.1, by omega, hp⟩
  · rintro ⟨i, h1, h2, h3⟩
    have hex : ∃ x, x ∈ List.range' 1 n ∧ ((fs x).isSome = true) :=
      ⟨i, by rw [mem_range1_iff]; omega, h3⟩
    have hsome : ((List.range' 1 n).find? (fun i => (fs i).isSome)).isSome := by
      rw [List.find?_isSome]
      exact hex
    obtain ⟨j, hj⟩ := Option.isSome_iff_exists.mp hsome
    exact ⟨j, hj⟩

/-- C9 counterexample: in create-exclusive mode with the active file
already existing (and valid thresholds), `setup` fails as the claim says,
but the failure comes out of `Deno.open` itself and `destroy` is *not*
invoked before the error surfaces. -/
theorem C9_counterexample :
    RotatingFileHandler.setup ⟨LogMode.x, 10, 2⟩ (fun j => if j = 0 then some [] else none)
      = .error { err := .alreadyExists 0, destroyCalled := false, fileOpen := false } := by
  rfl

/-- C9 amended: `setup` fails fatally iff `maxBytes < 1`, or
`maxBackupCount < 1`, or the mode is create-exclusive and the active file
or a numbered backup in `1..maxBackupCount` already exists; when it fails
no file handle remains held, and `destroy` is invoked before the error
surfaces on every failure path except the create-exclusive open failure on
an existing active file, where nothing had been acquired and `destroy` is
not invoked. -/
theorem C9_setup_failure (cfg : RotConfig) (fs0 : Nat → Option (List String)) :
    ((∃ f, RotatingFileHandler.setup cfg fs0 = .error f)
      ↔ (cfg.maxBytes < 1 ∨ cfg.maxBackupCount < 1
          ∨ (cfg.mode = .x ∧ ((fs0 0).isSome = true
              ∨ ∃ i, 1 ≤ i ∧ i ≤ cfg.maxBackupCount.toNat ∧ (fs0 i).isSome = true))))
    ∧ (∀ f, RotatingFileHandler.setup cfg fs0 = .error f →
        f.fileOpen = false
        ∧ (f.err = .alreadyExists 0 → f.destroyCalled = false)
        ∧ (f.err ≠ .alreadyExists 0 → f.destroyCalled = true)) := by
  by_cases h1 : cfg.maxBytes < 1
  · constructor
    · exact ⟨fun _ => Or.inl h1,
        fun _ => ⟨⟨.invalidMaxBytes, true, false⟩, by simp [RotatingFileHandler.setup, h1]⟩⟩
    · intro f hf
      simp only [RotatingFileHandler.setup, if_pos h1, Except.error.injEq] at hf
      subst hf
      exact ⟨rfl, fun h => by simp at h, fun _ => rfl⟩
  · by_cases h2 : cfg.maxBackupCount < 1
    · constructor
      · exact ⟨fun _ => Or.inr (Or.inl h2),
          fun _ => ⟨⟨.invalidMaxBackupCount, true, false⟩,
            by simp [RotatingFileHandler.setup, h1, h2]⟩⟩
      · intro f hf
        simp only [RotatingFileHandler.setup, if_neg h1, if_pos h2, Except.error.injEq] at hf
        subst hf
        exact ⟨rfl, fun h => by simp at h, fun _ => rfl⟩
    · cases hopen : openSyncContent cfg.mode (fs0 0) with
      | none =>
        obtain ⟨hx, hs0⟩ := (openSyncContent_eq_none_iff _ _).mp hopen
        constructor
        · exact ⟨fun _ => Or.inr (Or.inr ⟨hx, Or.inl hs0⟩),
            fun _ => ⟨⟨.alreadyExists 0, false, false⟩,
              by simp [RotatingFileHandler.setup, h1, h2, hopen]⟩⟩
        · intro f hf
          simp only [RotatingFileHandler.setup, if_neg h1, if_neg h2, hopen,
            Except.error.injEq] at hf
          subst hf
          exact ⟨rfl, fun _ => rfl, fun h => absurd rfl h⟩
      | some c0 =>
        have hmodeopen : ¬(cfg.mode = .x ∧ (fs0 0).isSome = true) := by
          intro hc
          rw [(openSyncContent_eq_none_iff _ _).mpr hc] at hopen
          exact Option.noConfusion hopen
        cases hmode : cfg.mode with
        | w =>
          rw [hmode] at hopen
          constructor
          · constructor
            · rintro ⟨f, hf⟩
              simp [RotatingFileHandler.setup, h1, h2, hmode, hopen] at hf
            · rintro (h | h | ⟨hx, _⟩)
              · exact absurd h h1
              · exact absurd h h2
              · exact absurd hx (by simp)
          · intro f hf
            simp [RotatingFileHandler.setup, h1, h2, hmode, hopen] at hf
        | a =>
          rw [hmode] at hopen
          constructor
          · constructor
            · rintro ⟨f, hf⟩
              simp [RotatingFileHandler.setup, h1, h2, hmode, hopen] at hf
            · rintro (h | h | ⟨hx, _⟩)
              · exact absurd h h1
              · exact absurd h h2
              · exact absurd hx (by simp)
          · intro f hf
            simp [RotatingFileHandler.setup, h1, h2, hmode, hopen] at hf
        | x =>
          rw [hmode] at hopen hmodeopen
          have hs0 : (fs0 0).isSome = false := by
            cases hs : (fs0 0).isSome
            · rfl
            · exact absurd ⟨rfl, hs⟩ hmodeopen
          cases hfind : firstExistingBackup
              (fun j => if j = 0 then some c0 else fs0 j) cfg.maxBackupCount.toNat with
          | some i =>
            obtain ⟨i', hi1, hi2, hi3⟩ :=
              (firstExistingBackup_some_iff _ _).mp ⟨i, hfind⟩
            have hi3' : (fs0 i').isSome = true := by
              have hne : ¬(i' = 0) := by omega
              simpa [hne] using hi3
            constructor
            · exact ⟨fun _ => Or.inr (Or.inr ⟨rfl, Or.inr ⟨i', hi1, hi2, hi3'⟩⟩),
                fun _ => ⟨⟨.alreadyExists i, true, false⟩,
                  by simp [RotatingFileHandler.setup, h1, h2, hmode, hopen, hfind]⟩⟩
            · intro f hf
              simp only [RotatingFileHandler.setup, if_neg h1, if_neg h2, hmode, hopen,
                hfind, Except.error.injEq] at hf
              subst hf
              have hipos : 1 ≤ i := by
                have hmem := List.mem_of_find?_eq_some hfind
                rw [mem_range1_iff] at hmem
                exact hmem.1
              refine ⟨rfl, fun h => ?_, fun _ => rfl⟩
              simp only [SetupErr.alreadyExists.injEq] at h
              omega
          | none =>
            constructor
            · constructor
              · rintro ⟨f, hf⟩
                simp [RotatingFileHandler.setup, h1, h2, hmode, hopen, hfind] at hf
              · rintro (h | h | ⟨_, (h0 | ⟨i, hi1, hi2, hi3⟩)⟩)
                · exact absurd h h1
                · exact absurd h h2
                · rw [hs0] at h0
                  exact Bool.noConfusion h0
                · have hsome : ∃ j, 1 ≤ j ∧ j ≤ cfg.maxBackupCount.toNat
                      ∧ ((fun j => if j = 0 then some c0 else fs0 j) j).isSome = true := by
                    refine ⟨i, hi1, hi2, ?_⟩
                    have hne : ¬(i = 0) := by omega
                    simpa [hne] using hi3
                  obtain ⟨j, hj⟩ := (firstExistingBackup_some_iff _ _).mpr hsome
                  rw [hfind] at hj
                  exact Option.noConfusion hj
            · intro f hf
              simp [RotatingFileHandler.setup, h1, h2, hmode, hopen, hfind] at hf

/-- C9 witness: a pre-existing backup `path.1` in create-exclusive mode
with valid thresholds makes `setup` fail after invoking `destroy`, holding
no file handle. -/
theorem C9_witness :
    (∃ f, RotatingFileHandler.setup ⟨LogMode.x, 10, 2⟩
        (fun j => if j = 1 then some [] else none) = .error f)
    ∧ RotatingFileHandler.setup ⟨LogMode.x, 10, 2⟩ (fun j => if j = 1 then some [] else none)
        = .error ⟨.alreadyExists 1, true, false⟩
    ∧ (({ err := .alreadyExists 1, destroyCalled := true, fileOpen := false }
          : SetupFailure).fileOpen = false
        ∧ (({ err := .alreadyExists 1, destroyCalled := true, fileOpen := false }
            : SetupFailure).err ≠ .alreadyExists 0 →
           ({ err := .alreadyExists 1, destroyCalled := true, fileOpen := false }
            : SetupFailure).destroyCalled = true)) := by
  refine ⟨?_, rfl, ?_⟩
  · exact (C9_setup_failure ⟨LogMode.x, 10, 2⟩ (fun j => if j = 1 then some [] else none)).1.mpr
      (Or.inr (Or.inr ⟨rfl, Or.inr ⟨1, by norm_num, by norm_num, by decide⟩⟩))
  · have h := (C9_setup_failure ⟨LogMode.x, 10, 2⟩
      (fun j => if j = 1 then some [] else none)).2
      { err := .alreadyExists 1, destroyCalled := true, fileOpen := false } rfl
    exact ⟨h.1, h.2.2⟩

/-- Two JS primitives that are indistinguishable without calling anything:
equal, except that two function objects need only share their printed
representation — their would-be return values may differ. -/
def pvalEquiv (a b : PVal) : Prop :=
  match a, b with
  | .pFunc r _, .pFunc r' _ => r = r'
  | x, y => x = y

/-- Lifting of `pvalEquiv` to values. -/
def valEquiv (a b : Val) : Prop :=
  match a, b with
  | .prim p, .prim q => pvalEquiv p q
  | .vObj fs, .vObj gs => List.Forall₂ (fun x y => x.1 = y.1 ∧ pvalEquiv x.2 y.2) fs gs
  | _, _ => False

theorem pvalEquiv_inspectP {a b : PVal} (h : pvalEquiv a b) : inspectP a = inspectP b := by
  cases a <;> cases b <;> simp_all [pvalEquiv, inspectP]

theorem pvalEquiv_asStringP {a b : PVal} (h : pvalEquiv a b) : asStringP a = asStringP b := by
  cases a <;> cases b <;> simp_all [pvalEquiv, asStringP, inspectP]

theorem valEquiv_inspect {a b : Val} (h : valEquiv a b) : inspect a = inspect b := by
  cases a with
  | prim p =>
    cases b with
    | prim q => simpa [inspect] using pvalEquiv_inspectP h
    | vObj gs => exact absurd h (by simp [valEquiv])
  | vObj fs =>
    cases b with
    | prim q => exact absurd h (by simp [valEquiv])
    | vObj gs =>
      have h' : List.Forall₂ (fun x y => x.1 = y.1 ∧ pvalEquiv x.2 y.2) fs gs := h
      clear h
      have hmap : fs.map (fun f => f.1 ++ ": " ++ inspectP f.2)
          = gs.map (fun f => f.1 ++ ": " ++ inspectP f.2) := by
        induction h' with
        | nil => rfl
        | cons hx ht ih => simp [hx.1, pvalEquiv_inspectP hx.2, ih]
      simp [inspect, hmap]

theorem valEquiv_asString {a b : Val} (h : valEquiv a b) : asString a = asString b := by
  cases a with
  | prim p =>
    cases b with
    | prim q =>
      cases p <;> cases q <;> simp_all [valEquiv, pvalEquiv, asString, inspect, inspectP]
    | vObj gs => exact absurd h (by simp [valEquiv])
  | vObj fs =>
    cases b with
    | prim q => exact absurd h (by simp [valEquiv])
    | vObj gs =>
      have := valEquiv_inspect h
      simpa [asString] using this

theorem argsToString_equiv {args args' : List Val}
    (h : List.Forall₂ valEquiv args args') : argsToString args = argsToString args' := by
  have hmap : args.map (fun a => asString a ++ " ") = args'.map (fun a => asString a ++ " ") := by
    induction h with
    | nil => rfl
    | cons hx ht ih => simp [valEquiv_asString hx, ih]
  cases h with
  | nil => rfl
  | cons hx ht =>
    rename_i a b l1 l2
    cases ht with
    | nil => simp [argsToString, valEquiv_asString hx]
    | cons hy ht2 =>
      rename_i a2 b2 l12 l22
      show (String.join ((a :: a2 :: l12).map (fun v => asString v ++ " "))).trim
        = (String.join ((b :: b2 :: l22).map (fun v => asString v ++ " "))).trim
      rw [hmap]

/-- The level stored in a freshly built record. -/
theorem LogRecord.build_level (name : String) (cat : Option String) (now : Nat) (R : Int)
    (args : List Val) : (LogRecord.build name cat now R args).level = R := rfl

/-- The message text stored in a freshly built record. -/
theorem LogRecord.build_msg (name : String) (cat : Option String) (now : Nat) (R : Int)
    (args : List Val) : (LogRecord.build name cat now R args).msg = argsToString args := rfl

/-- Array-join rendering cannot distinguish equivalent values. -/
theorem jsElemString_equiv {a b : Val} (h : valEquiv a b) : jsElemString a = jsElemString b := by
  cases a with
  | prim p =>
    cases b with
    | prim q => cases p <;> cases q <;> simp_all [valEquiv, pvalEquiv, jsElemString]
    | vObj gs => exact absurd h (by simp [valEquiv])
  | vObj fs =>
    cases b with
    | prim q => exact absurd h (by simp [valEquiv])
    | vObj gs => rfl

/-- Record-field resolution cannot distinguish records that differ only in
the would-be return values of function arguments: every field except the
arguments is identical, and the arguments render by representation only. -/
theorem build_resolveRecord_eq (dtf name : String) (cat : Option String) (now : Nat)
    (R : Int) (args args' : List Val) (hequiv : List.Forall₂ valEquiv args args') :
    resolveRecord dtf (LogRecord.build name cat now R args)
      = resolveRecord dtf (LogRecord.build name cat now R args') := by
  have hjoin : args.map jsElemString = args'.map jsElemString := by
    induction hequiv with
    | nil => rfl
    | cons hx ht ih => simp only [List.map_cons, jsElemString_equiv hx, ih]
  have hmsg : argsToString args = argsToString args' := argsToString_equiv hequiv
  funext nm
  simp only [resolveRecord, LogRecord.build, hmsg, hjoin]

/-- A template-formatter handler treats two such records identically. -/
theorem handle_build_equiv (h : HandlerCfg) (s : String) (hfm : h.formatter = .template s)
    (name : String) (cat : Option String) (now : Nat) (R : Int) (args args' : List Val)
    (hequiv : List.Forall₂ valEquiv args args') :
    BaseHandler.handle h (LogRecord.build name cat now R args)
      = BaseHandler.handle h (LogRecord.build name cat now R args') := by
  have hres := build_resolveRecord_eq h.datetimeFormat name cat now R args args' hequiv
  by_cases hg : h.level > R
  · simp [BaseHandler.handle, LogRecord.build_level, hg]
  · simp [BaseHandler.handle, LogRecord.build_level, hg, BaseHandler.format, hfm,
      BaseHandler.formatCustom, hres]

/-- C10: an argument that is a function value is never invoked by a log
call — neither when the gate rejects the record nor when it accepts it:
everything `Logger._log` or `LoggerCategory._log` produces (the record's
message text, the messages dispatched through template-formatter handlers,
and the returned result) is unchanged when the would-be return values of
function arguments change, so no caller-supplied deferred message callback
is ever evaluated; arguments render by value inspection only
(`asString`/`argsToString`). -/
theorem C10_functions_never_invoked (T : Int) (name : String) (rr : Bool)
    (hs : List HandlerCfg) (now : Nat) (R : Int) (args args' : List Val) (cat : String)
    (hequiv : List.Forall₂ valEquiv args args')
    (htpl : ∀ h ∈ hs, ∃ s, h.formatter = .template s) :
    ((Logger._log T name rr hs now R args).record.map LogRec.msg
        = (Logger._log T name rr hs now R args').record.map LogRec.msg)
    ∧ (Logger._log T name rr hs now R args).dispatched
        = (Logger._log T name rr hs now R args').dispatched
    ∧ (Logger._log T name rr hs now R args).result
        = (Logger._log T name rr hs now R args').result
    ∧ ((LoggerCategory._log cat T name rr hs now R args).record.map LogRec.msg
        = (LoggerCategory._log cat T name rr hs now R args').record.map LogRec.msg)
    ∧ (LoggerCategory._log cat T name rr hs now R args).dispatched
        = (LoggerCategory._log cat T name rr hs now R args').dispatched
    ∧ (LoggerCategory._log cat T name rr hs now R args).result
        = (LoggerCategory._log cat T name rr hs now R args').result := by
  have hmsg := argsToString_equiv hequiv
  have hdisp : ∀ (c : Option String) (l : List HandlerCfg),
      (∀ h ∈ l, ∃ s, h.formatter = .template s) →
      l.map (fun h => BaseHandler.handle h (LogRecord.build name c now R args))
        = l.map (fun h => BaseHandler.handle h (LogRecord.build name c now R args')) := by
    intro c l hl
    induction l with
    | nil => rfl
    | cons h t ih =>
      obtain ⟨s, hfm⟩ := hl h (by simp)
      have hht := ih (fun g hg => hl g (by simp [hg]))
      simp only [List.map_cons,
        handle_build_equiv h s hfm name c now R args args' hequiv, hht]
  by_cases hg : T > R
  · simp [Logger._log, LoggerCategory._log, hg, hmsg]
  · simp only [Logger._log, LoggerCategory._log, if_neg hg, hdisp none hs htpl,
      hdisp (some cat) hs htpl, LogRecord.build_msg, hmsg, Option.map_some']
    exact ⟨trivial, trivial, trivial, trivial, trivial, trivial⟩

/-- C10 witness: two function arguments sharing the representation `fn`
but with different would-be results produce identical results and
dispatched messages at a concrete logger and template handler. -/
theorem C10_witness :
    List.Forall₂ valEquiv [Val.prim (PVal.pFunc "fn" "res1")]
        [Val.prim (PVal.pFunc "fn" "res2")]
    ∧ (∀ h ∈ [HandlerCfg.mk 10 (Formatter.template "m \x7bmsg\x7d") "d" true],
        ∃ s, h.formatter = .template s)
    ∧ (Logger._log 0 "lg" true [HandlerCfg.mk 10 (Formatter.template "m \x7bmsg\x7d") "d" true]
          0 20 [Val.prim (PVal.pFunc "fn" "res1")]).result
        = (Logger._log 0 "lg" true [HandlerCfg.mk 10 (Formatter.template "m \x7bmsg\x7d") "d" true]
            0 20 [Val.prim (PVal.pFunc "fn" "res2")]).result
    ∧ (Logger._log 0 "lg" true [HandlerCfg.mk 10 (Formatter.template "m \x7bmsg\x7d") "d" true]
          0 20 [Val.prim (PVal.pFunc "fn" "res1")]).dispatched
        = (Logger._log 0 "lg" true [HandlerCfg.mk 10 (Formatter.template "m \x7bmsg\x7d") "d" true]
            0 20 [Val.prim (PVal.pFunc "fn" "res2")]).dispatched := by
  have hequiv : List.Forall₂ valEquiv [Val.prim (PVal.pFunc "fn" "res1")]
      [Val.prim (PVal.pFunc "fn" "res2")] := List.Forall₂.cons rfl List.Forall₂.nil
  have htpl : ∀ h ∈ [HandlerCfg.mk 10 (Formatter.template "m \x7bmsg\x7d") "d" true],
      ∃ s, h.formatter = .template s := by
    intro h hm
    simp at hm
    subst hm
    exact ⟨"m \x7bmsg\x7d", rfl⟩
  have hmain := C10_functions_never_invoked 0 "lg" true
    [HandlerCfg.mk 10 (Formatter.template "m \x7bmsg\x7d") "d" true] 0 20
    [Val.prim (PVal.pFunc "fn" "res1")] [Val.prim (PVal.pFunc "fn" "res2")] "c" hequiv htpl
  exact ⟨hequiv, htpl, hmain.2.2.1, hmain.2.1⟩
